import Mathlib

/-!
Verification development for the batch execution orchestrator and inbound
message bridge of `discord-ses-bot`.

The embedding covers:
* `runBlock` / `runBatch` — the block and batch runners of the swingset
  runner (`createSwingsetRunner`), which drive the engine one crank at a
  time with periodic durable commits;
* `doOutboundBridge` / `handleMessage` — the message bridge correlating
  inbound messages with their asynchronous resolutions through the
  `messageResponsePromises` mapping and the `messageCount` counter;
* `makeSealer` / `seal` / `unseal` — the WeakMap-based sealer.

The engine (the swingset controller) and the store are external
collaborators of the repository.  Modelled from the spec: the engine is an
opaque stateful machine advanced one indivisible unit of work per
`step()` invocation; `step()` returns the count of units executed (1 while
work remains, 0 once the queue is drained) and may throw.  We embed the
engine as a script of step outcomes: `.ok` is a step that executes one
unit, `.fail` is a step whose invocation throws.  A queue of exactly `k`
units is the script `List.replicate k .ok`.
-/

namespace DiscordSesBot

/-- One outcome of invoking the engine's `step()` operation: either one
unit of work is executed, or the invocation throws. -/
inductive StepOutcome
  | ok
  | fail
deriving DecidableEq, Repr

/-- Modelled from the spec: the engine is embedded as the script of its
remaining step outcomes; an empty script means the work queue is drained
and `step()` returns 0. -/
abbrev Engine := List StepOutcome

/-- The durable store, reduced to the observations the claims need: how
many times `commit()` was invoked and the crank counter as of the last
commit (the durable state). -/
structure Store where
  commits : Nat
  durableCranks : Nat
deriving DecidableEq, Repr

/-- `store.commit()`: atomically persists the current crank counter. -/
def Store.commitOp (st : Store) (crank : Nat) : Store :=
  { commits := st.commits + 1, durableCranks := crank }

/-- State threaded through the block/batch runners: the engine script, the
in-memory `crankNumber` counter, a ghost count of `controller.step()`
invocations (used to state that the loop stops early and performs no
retries), and the store. -/
structure RState where
  engine : Engine
  crankNumber : Nat
  stepCalls : Nat
  store : Store
deriving DecidableEq, Repr

/-- The `while (requestedSteps > 0)` loop body of `runBlock`: decrement
the remaining ceiling, invoke `controller.step()`, break when it reports
fewer than one unit, otherwise accumulate into `actualSteps` and
`crankNumber`.  An exception from `step()` propagates as `.error` (the
JavaScript heap — here the threaded state — survives the exception). -/
def runBlockLoop : Nat → Nat → RState → (Except Unit Nat) × RState
  | 0, actualSteps, s => (Except.ok actualSteps, s)
  | n + 1, actualSteps, s =>
    match s.engine with
    | [] => (Except.ok actualSteps, { s with stepCalls := s.stepCalls + 1 })
    | StepOutcome.ok :: rest =>
      runBlockLoop n (actualSteps + 1)
        { s with
            engine := rest
            stepCalls := s.stepCalls + 1
            crankNumber := s.crankNumber + 1 }
    | StepOutcome.fail :: rest =>
      (Except.error (), { s with engine := rest, stepCalls := s.stepCalls + 1 })

/-- `runBlock(requestedSteps, doCommit)`: run the step loop, then — only
when the loop finished without an exception — invoke `store.commit()` when
`doCommit` is set.  The per-crank diagnostics (`doDumps`, `doAudits`,
`verbose`) and the stat logger are disabled in the runner's fixed
configuration and are strictly observational, so they are omitted. -/
def runBlock (requestedSteps : Nat) (doCommit : Bool) (s : RState) :
    (Except Unit Nat) × RState :=
  match runBlockLoop requestedSteps 0 s with
  | (Except.error e, s1) => (Except.error e, s1)
  | (Except.ok actualSteps, s1) =>
    (Except.ok actualSteps,
      if doCommit then { s1 with store := s1.store.commitOp s1.crankNumber } else s1)

/-- The `do … while ((runAll || stepLimit > 0) && steps >= blockSize)`
loop of `runBatch`.  `stepLimit` is a JavaScript number that may go
negative, hence `Int`.  `fuel` bounds the recursion: when
`blockSize ≥ 1`, every iteration that loops again consumed at least
`blockSize ≥ 1` engine entries, so `engine.length + 1` iterations always
suffice and the fuel-exhaustion branch is unreachable. -/
def runBatchLoop (blockSize : Nat) (doCommit : Bool) (runAll : Bool) :
    Nat → Nat → Int → RState → (Except Unit Nat) × RState
  | 0, totalSteps, _, s => (Except.ok totalSteps, s)
  | fuel + 1, totalSteps, stepLimit, s =>
    match runBlock blockSize doCommit s with
    | (Except.error e, s1) => (Except.error e, s1)
    | (Except.ok steps, s1) =>
      if (runAll = true ∨ 0 < stepLimit - (steps : Int)) ∧ blockSize ≤ steps then
        runBatchLoop blockSize doCommit runAll fuel (totalSteps + steps)
          (stepLimit - (steps : Int)) s1
      else
        (Except.ok (totalSteps + steps), s1)

/-- `runBatch(stepLimit, doCommit)`: `runAll` is read from the original
`stepLimit` before the loop; each iteration runs one block with ceiling
`blockSize`. -/
def runBatch (blockSize stepLimit : Nat) (doCommit : Bool) (s : RState) :
    (Except Unit Nat) × RState :=
  runBatchLoop blockSize doCommit (stepLimit == 0) (s.engine.length + 1) 0
    (stepLimit : Int) s

/-- A fresh runner state whose engine queue holds exactly `k` units. -/
def initState (k : Nat) : RState :=
  { engine := List.replicate k StepOutcome.ok
    crankNumber := 0
    stepCalls := 0
    store := { commits := 0, durableCranks := 0 } }

/-! ## Message bridge

`messageResponsePromises` is a JavaScript object mapping numeric message
ids to deferreds; we embed it as an association list with property-get
(`lookupA`, first match) and property-set (`setA`, replace or append)
semantics.  A deferred's promise resolves at most once: a second
`resolve` on a settled promise is a silent no-op. -/

/-- Association-list read, JavaScript `obj[k]` (entries are deferred
objects, hence always truthy when present). -/
def lookupA {α : Type} : List (Nat × α) → Nat → Option α
  | [], _ => none
  | (k, a) :: rest, key => if k = key then some a else lookupA rest key

/-- Association-list write, JavaScript `obj[k] = v`. -/
def setA {α : Type} : List (Nat × α) → Nat → α → List (Nat × α)
  | [], key, v => [(key, v)]
  | (k, a) :: rest, key, v =>
    if k = key then (k, v) :: rest else (k, a) :: setA rest key v

/-- The deferred produced by `defer()`: its promise is either still
pending (`none`) or settled with the first value it was resolved with. -/
structure Deferred where
  resolved : Option Nat
deriving DecidableEq, Repr

/-- `deferred.resolve(value)`: settles a pending promise; resolving an
already-settled promise is a no-op and the first value is retained. -/
def Deferred.resolve (d : Deferred) (value : Nat) : Deferred :=
  match d.resolved with
  | none => { resolved := some value }
  | some w => { resolved := some w }

/-- The bridge-relevant closure state of the runner: the `messageCount`
correlation counter, the `messageResponsePromises` mapping, and the log of
`console.warn('outbound missing msg id', …)` emissions. -/
structure BridgeState where
  messageCount : Nat
  promises : List (Nat × Deferred)
  warnings : List Nat
deriving DecidableEq, Repr

/-- `doOutboundBridge(msgId, value)`: if no pending promise is registered
for `msgId`, warn and return; otherwise resolve the registered deferred.
The function is total — it never throws back into engine execution. -/
def doOutboundBridge (s : BridgeState) (msgId value : Nat) : BridgeState :=
  match lookupA s.promises msgId with
  | none => { s with warnings := s.warnings ++ [msgId] }
  | some d => { s with promises := setA s.promises msgId (d.resolve value) }

/-- `handleMessage(...args)`: allocate `messageId` from `messageCount`,
register the deferred under it, and only then deliver the message to the
engine's inbound bridge and drive the batch to drain.  During that
delivery and drain the engine may invoke the outbound callback any number
of times; `engineOutbound` is the list of those `(msgId, value)`
callbacks, applied in order after registration. -/
def handleMessage (s : BridgeState) (engineOutbound : List (Nat × Nat)) :
    Nat × BridgeState :=
  let messageId := s.messageCount
  let s1 : BridgeState :=
    { s with
        messageCount := s.messageCount + 1
        promises := setA s.promises messageId { resolved := none } }
  let s2 := engineOutbound.foldl (fun st c => doOutboundBridge st c.1 c.2) s1
  (messageId, s2)

/-- An observable operation on the bridge over the runner's lifetime:
either a `handleMessage` invocation (with the outbound callbacks the
engine makes during its drain) or a later, stray or stale, invocation of
the outbound callback. -/
inductive BridgeOp
  | handle (engineOutbound : List (Nat × Nat))
  | outbound (msgId : Nat) (value : Nat)

/-- Apply one bridge operation to the state. -/
def applyOp (s : BridgeState) : BridgeOp → BridgeState
  | BridgeOp.handle calls => (handleMessage s calls).2
  | BridgeOp.outbound msgId value => doOutboundBridge s msgId value

/-- Run a sequence of bridge operations. -/
def runOps : BridgeState → List BridgeOp → BridgeState
  | s, [] => s
  | s, op :: rest => runOps (applyOp s op) rest

/-- The correlation ids issued by the `handleMessage` invocations of a run,
in order. -/
def issuedIds : BridgeState → List BridgeOp → List Nat
  | _, [] => []
  | s, BridgeOp.handle calls :: rest =>
    (handleMessage s calls).1 :: issuedIds (applyOp s (BridgeOp.handle calls)) rest
  | s, BridgeOp.outbound msgId value :: rest =>
    issuedIds (applyOp s (BridgeOp.outbound msgId value)) rest

/-- The bridge state of a freshly created runner: `messageCount = 0`,
empty mapping, nothing warned. -/
def initBridge : BridgeState :=
  { messageCount := 0, promises := [], warnings := [] }

/-! ## Sealer

`makeSealer` closes over a fresh WeakMap.  `seal` allocates a fresh
object `{type: 'sealed', label}` — object allocation yields an identity
distinct from every existing object, embedded as a counter — and records
`sealed ↦ original` in the WeakMap.  `unseal` reads the WeakMap;
`WeakMap.get` on an absent key yields `undefined`, embedded as `none`. -/

/-- A sealed box object: its allocation identity and its visible
`label` field. -/
structure Sealed where
  identity : Nat
  label : Nat
deriving DecidableEq, Repr

/-- The sealer's closure state: the next fresh object identity and the
WeakMap from sealed-object identity to the original value. -/
structure SealerState where
  nextId : Nat
  unsealMap : List (Nat × Nat)
deriving DecidableEq, Repr

/-- `makeSealer()`: a fresh sealer with an empty WeakMap. -/
def makeSealer : SealerState :=
  { nextId := 0, unsealMap := [] }

/-- `seal(original, label)`: allocate the sealed object and record the
original against it in the WeakMap. -/
def sealOp (s : SealerState) (original label : Nat) : Sealed × SealerState :=
  ({ identity := s.nextId, label := label },
   { nextId := s.nextId + 1, unsealMap := setA s.unsealMap s.nextId original })

/-- `unseal(sealed)`: `unsealMap.get(sealed)`, `none` when absent. -/
def unsealOp (s : SealerState) (obj : Sealed) : Option Nat :=
  lookupA s.unsealMap obj.identity

/-! ## Block runner lemmas -/

/-- On a no-failure engine of `k` units, the step loop executes
`min c k` units, makes `min c (k + 1)` step calls, and leaves
`k - c` units queued. -/
lemma runBlockLoop_replicate (c : Nat) :
    ∀ (k acc crank calls : Nat) (st : Store),
    runBlockLoop c acc ⟨List.replicate k StepOutcome.ok, crank, calls, st⟩ =
      (Except.ok (acc + min c k),
       ⟨List.replicate (k - c) StepOutcome.ok, crank + min c k,
        calls + min c (k + 1), st⟩) := by
  induction c with
  | zero =>
    intro k acc crank calls st
    simp [runBlockLoop]
  | succ c ih =>
    intro k acc crank calls st
    cases k with
    | zero =>
      simp [runBlockLoop]
    | succ k =>
      rw [List.replicate_succ]
      rw [runBlockLoop]
      simp only []
      rw [ih k (acc + 1) (crank + 1) (calls + 1) st]
      have h1 : acc + 1 + min c k = acc + min (c + 1) (k + 1) := by omega
      have h2 : crank + 1 + min c k = crank + min (c + 1) (k + 1) := by omega
      have h3 : calls + 1 + min c (k + 1) = calls + min (c + 1) (k + 1 + 1) := by
        omega
      have h4 : k - c = k + 1 - (c + 1) := by omega
      rw [h1, h2, h3, h4]

/-- `runBlock` on a no-failure engine of `k` units: executes `min c k`
units and commits exactly when asked. -/
lemma runBlock_replicate (c k : Nat) (dc : Bool) (crank calls : Nat) (st : Store) :
    runBlock c dc ⟨List.replicate k StepOutcome.ok, crank, calls, st⟩ =
      (Except.ok (min c k),
       ⟨List.replicate (k - c) StepOutcome.ok, crank + min c k,
        calls + min c (k + 1),
        if dc then st.commitOp (crank + min c k) else st⟩) := by
  rw [runBlock, runBlockLoop_replicate]
  cases dc <;> simp [Store.commitOp]

/-- `runBlock_replicate` specialised to a committing block. -/
lemma runBlock_replicate_commit (c k crank calls : Nat) (st : Store) :
    runBlock c true ⟨List.replicate k StepOutcome.ok, crank, calls, st⟩ =
      (Except.ok (min c k),
       ⟨List.replicate (k - c) StepOutcome.ok, crank + min c k,
        calls + min c (k + 1), st.commitOp (crank + min c k)⟩) := by
  rw [runBlock_replicate]
  simp

/-- Draining batch loop (`runAll = true`, committing): on a no-failure
engine of `k` units with enough fuel, it executes all `k` units and ends
with `k / b + 1` more commits, the last one at crank `crank + k`. -/
lemma runBatchLoop_drain (b : Nat) (hb : 0 < b) :
    ∀ (fuel k : Nat), k < fuel →
    ∀ (total : Nat) (lim : Int) (crank calls cms dur : Nat),
    ∃ calls1,
    runBatchLoop b true true fuel total lim
        ⟨List.replicate k StepOutcome.ok, crank, calls, ⟨cms, dur⟩⟩ =
      (Except.ok (total + k),
       ⟨[], crank + k, calls1, ⟨cms + (k / b + 1), crank + k⟩⟩) := by
  intro fuel
  induction fuel with
  | zero => intro k hk; omega
  | succ fuel ih =>
    intro k hk total lim crank calls cms dur
    rw [runBatchLoop]
    rw [runBlock_replicate_commit]
    dsimp only
    by_cases hbk : b ≤ k
    · have hmin : min b k = b := by omega
      rw [hmin]
      rw [if_pos (by exact ⟨Or.inl rfl, le_refl b⟩)]
      have hk2 : k - b < fuel := by omega
      obtain ⟨calls1, h⟩ :=
        ih (k - b) hk2 (total + b) (lim - (b : Int)) (crank + b)
          (calls + min b (k + 1)) (cms + 1) (crank + b)
      simp only [Store.commitOp]
      refine ⟨calls1, ?_⟩
      rw [h]
      have e1 : total + b + (k - b) = total + k := by omega
      have e2 : crank + b + (k - b) = crank + k := by omega
      have e3 : cms + 1 + ((k - b) / b + 1) = cms + (k / b + 1) := by
        have := Nat.div_eq_sub_div hb hbk
        omega
      rw [e1, e2, e3]
    · have hmin : min b k = k := by omega
      rw [hmin]
      rw [if_neg (by intro h; exact hbk h.2)]
      have e1 : k - b = 0 := by omega
      have e2 : k / b = 0 := Nat.div_eq_of_lt (by omega)
      refine ⟨calls + min b (k + 1), ?_⟩
      rw [e1, e2]
      simp [Store.commitOp]

/-- Bounded batch loop (`runAll = false`): with `0 < lim ≤ k` units
available, the loop executes at least `lim` and at most `lim + b - 1`
further units (it never stops mid-block). -/
lemma runBatchLoop_limited (b : Nat) (hb : 0 < b) :
    ∀ (fuel k : Nat), k < fuel → ∀ (lim : Int), 0 < lim → lim ≤ (k : Int) →
    ∀ (total crank calls cms dur : Nat),
    ∃ u s1,
      runBatchLoop b true false fuel total lim
          ⟨List.replicate k StepOutcome.ok, crank, calls, ⟨cms, dur⟩⟩ =
        (Except.ok (total + u), s1) ∧ lim ≤ (u : Int) ∧ (u : Int) ≤ lim + b - 1 := by
  intro fuel
  induction fuel with
  | zero => intro k hk; omega
  | succ fuel ih =>
    intro k hk lim hl hlk total crank calls cms dur
    rw [runBatchLoop, runBlock_replicate_commit]
    dsimp only
    simp only [Store.commitOp]
    by_cases hbk : b ≤ k
    · have hmin : min b k = b := by omega
      rw [hmin]
      by_cases hcont : 0 < lim - (b : Int)
      · rw [if_pos ⟨Or.inr hcont, le_refl b⟩]
        have hk2 : k - b < fuel := by omega
        have hlk2 : lim - (b : Int) ≤ ((k - b : Nat) : Int) := by
          push_cast [Nat.cast_sub hbk]
          omega
        obtain ⟨u, s1, h, h1, h2⟩ :=
          ih (k - b) hk2 (lim - (b : Int)) hcont hlk2 (total + b) (crank + b)
            (calls + min b (k + 1)) (cms + 1) (crank + b)
        refine ⟨b + u, s1, ?_, by push_cast; omega, by push_cast; omega⟩
        rw [h]
        have e1 : total + b + u = total + (b + u) := by omega
        rw [e1]
      · rw [if_neg (by
          rintro ⟨hc, _⟩
          rcases hc with hc | hc
          · exact absurd hc (by simp)
          · exact hcont hc)]
        refine ⟨b, _, rfl, by omega, by omega⟩
    · have hmin : min b k = k := by omega
      rw [hmin]
      rw [if_neg (by rintro ⟨_, hc⟩; exact hbk hc)]
      have hkb : (k : Int) < (b : Int) := by exact_mod_cast Nat.lt_of_not_le hbk
      exact ⟨k, _, rfl, hlk, by omega⟩

/-! ## C1 — `runBatch(0, true)` drain: units and commit count

The claim states `ceil(k / blockSize)` commits (one commit when
`k = 0`).  The code's `do … while (steps >= blockSize)` loop runs one
final empty block (with its own commit) whenever the last productive
block was full, so the commit count is `k / blockSize + 1` (floor
division): equal to `ceil(k / blockSize)` only when `blockSize` does not
divide `k`, and one greater when it does. -/

/-- C1 counterexample: with `blockSize = 1` and a queue of exactly `1`
unit, `runBatch(0, true)` calls commit twice, not
`ceil(1 / 1) = (1 + 1 - 1) / 1 = 1` times as claimed. -/
theorem runBatch_commit_ceil_counterexample :
    (runBatch 1 0 true (initState 1)).2.store.commits ≠ (1 + 1 - 1) / 1 := by
  decide

/-- C1 (amended): for every `blockSize > 0` and an engine whose queue
contains exactly `k` units, `runBatch(0, true)` executes exactly `k`
units and calls commit exactly `k / blockSize + 1` times (floor
division; one commit with zero units committed when `k = 0`), the last
commit persisting crank `k`. -/
theorem runBatch_drain_commits (b k : Nat) (hb : 0 < b) :
    ∃ s1, runBatch b 0 true (initState k) = (Except.ok k, s1) ∧
      s1.store.commits = k / b + 1 ∧ s1.store.durableCranks = k := by
  obtain ⟨calls1, h⟩ := runBatchLoop_drain b hb (k + 1) k (by omega) 0 0 0 0 0 0
  refine ⟨⟨[], k, calls1, ⟨k / b + 1, k⟩⟩, ?_, rfl, rfl⟩
  rw [runBatch, initState]
  simp only [List.length_replicate]
  simpa using h

/-- Witness for C1 (amended) at `blockSize = 2`, `k = 5`: three blocks of
2, 2 and 1 units, hence `5 / 2 + 1 = 3` commits. -/
theorem runBatch_drain_commits_witness :
    0 < 2 ∧
    ∃ s1, runBatch 2 0 true (initState 5) = (Except.ok 5, s1) ∧
      s1.store.commits = 5 / 2 + 1 ∧ s1.store.durableCranks = 5 :=
  ⟨by decide, runBatch_drain_commits 2 5 (by decide)⟩

/-! ## C4 — bounded `runBatch` never stops mid-block -/

/-- C4: for every `stepLimit` with `0 < stepLimit <` the units available,
`runBatch(stepLimit, true)` executes at least `stepLimit` units and at
most `stepLimit + blockSize - 1` units. -/
theorem runBatch_steplimit_bounds (b lim k : Nat) (hb : 0 < b)
    (hl : 0 < lim) (hlk : lim < k) :
    ∃ u s1, runBatch b lim true (initState k) = (Except.ok u, s1) ∧
      lim ≤ u ∧ u ≤ lim + b - 1 := by
  obtain ⟨u, s1, h, h1, h2⟩ :=
    runBatchLoop_limited b hb (k + 1) k (by omega) (lim : Int)
      (by exact_mod_cast hl) (by exact_mod_cast Nat.le_of_lt hlk) 0 0 0 0 0
  refine ⟨u, s1, ?_, by omega, by omega⟩
  rw [runBatch, initState]
  simp only [List.length_replicate]
  have hne : (lim == 0) = false := by
    simp only [beq_eq_false_iff_ne, ne_eq]
    omega
  rw [hne]
  simpa using h

/-- Witness for C4 at `blockSize = 2`, `stepLimit = 3`, `k = 5`: the
batch executes 4 units, within `[3, 4]`. -/
theorem runBatch_steplimit_bounds_witness :
    0 < 2 ∧ 0 < 3 ∧ 3 < 5 ∧
    ∃ u s1, runBatch 2 3 true (initState 5) = (Except.ok u, s1) ∧
      3 ≤ u ∧ u ≤ 3 + 2 - 1 :=
  ⟨by decide, by decide, by decide,
   runBatch_steplimit_bounds 2 3 5 (by decide) (by decide) (by decide)⟩

/-! ## C6 — `runBlock` returns at most the ceiling and stops on drain -/

/-- Step-loop invariant: a successful loop returns between `acc` and
`acc + c` units, and the number of `step()` calls it made is the units
executed plus one extra call exactly when it stopped early on the drain
signal (so after a zero-unit step no further steps are attempted). -/
lemma runBlockLoop_ok_spec :
    ∀ (c acc : Nat) (s : RState) (n : Nat) (s1 : RState),
      runBlockLoop c acc s = (Except.ok n, s1) →
      acc ≤ n ∧ n ≤ acc + c ∧
      s1.stepCalls =
        s.stepCalls + (if n - acc < c then n - acc + 1 else n - acc) := by
  intro c
  induction c with
  | zero =>
    intro acc s n s1 h
    rw [runBlockLoop] at h
    simp only [Prod.mk.injEq, Except.ok.injEq] at h
    obtain ⟨rfl, rfl⟩ := h
    simp
  | succ c ih =>
    intro acc s n s1 h
    rw [runBlockLoop] at h
    rcases hE : s.engine with _ | ⟨o, rest⟩
    · rw [hE] at h
      simp only [Prod.mk.injEq, Except.ok.injEq] at h
      obtain ⟨rfl, rfl⟩ := h
      refine ⟨Nat.le_refl acc, by omega, ?_⟩
      simp
    · cases o with
      | ok =>
        rw [hE] at h
        dsimp only at h
        obtain ⟨ha, hb, hc⟩ := ih (acc + 1) _ n s1 h
        refine ⟨by omega, by omega, ?_⟩
        dsimp only at hc
        split at hc <;> split <;> omega
      | fail =>
        rw [hE] at h
        simp at h

/-- C6: a successful `runBlock` returns the count of units actually
executed, never more than the requested ceiling, and — via the
`stepCalls` accounting — once a step reports zero units the loop stops
early and attempts no further steps in that block. -/
theorem runBlock_le_ceiling_stops_on_drain
    (c : Nat) (dc : Bool) (s : RState) (n : Nat) (s1 : RState)
    (h : runBlock c dc s = (Except.ok n, s1)) :
    n ≤ c ∧ s1.stepCalls = s.stepCalls + (if n < c then n + 1 else n) := by
  rw [runBlock] at h
  rcases hL : runBlockLoop c 0 s with ⟨e, s2⟩
  rw [hL] at h
  cases e with
  | error e => simp at h
  | ok m =>
    dsimp only at h
    simp only [Prod.mk.injEq, Except.ok.injEq] at h
    obtain ⟨rfl, rfl⟩ := h
    obtain ⟨-, h2, h3⟩ := runBlockLoop_ok_spec c 0 s m s2 hL
    refine ⟨by omega, ?_⟩
    have hcalls : (if dc then { s2 with store := s2.store.commitOp s2.crankNumber }
        else s2).stepCalls = s2.stepCalls := by
      cases dc <;> rfl
    rw [hcalls, h3]
    simp only [Nat.sub_zero]

/-- Witness for C6: ceiling 3 against a queue of 1 unit — one unit
executed (`1 ≤ 3`), two step calls (the second reported the drain). -/
theorem runBlock_le_ceiling_stops_on_drain_witness :
    runBlock 3 false (initState 1) = (Except.ok 1, ⟨[], 1, 2, ⟨0, 0⟩⟩) ∧
    (1 ≤ 3 ∧ (⟨[], 1, 2, ⟨0, 0⟩⟩ : RState).stepCalls =
      (initState 1).stepCalls + (if 1 < 3 then 1 + 1 else 1)) :=
  ⟨by rfl,
   runBlock_le_ceiling_stops_on_drain 3 false (initState 1) 1 ⟨[], 1, 2, ⟨0, 0⟩⟩
     (by rfl)⟩

/-! ## C8 — a step exception propagates; the block is not committed -/

/-- Step loop on an engine that fails at unit `j + 1` of the block
(`j < c`): the exception propagates, the crank counter advanced only by
the `j` successful units, exactly `j + 1` step calls were attempted (no
retry), and the store is untouched. -/
lemma runBlockLoop_fail (j : Nat) :
    ∀ (c acc : Nat) (rest : Engine) (crank calls : Nat) (st : Store), j < c →
    runBlockLoop c acc
        ⟨List.replicate j StepOutcome.ok ++ StepOutcome.fail :: rest,
         crank, calls, st⟩ =
      (Except.error (), ⟨rest, crank + j, calls + (j + 1), st⟩) := by
  induction j with
  | zero =>
    intro c acc rest crank calls st hc
    cases c with
    | zero => omega
    | succ c =>
      rw [runBlockLoop]
      simp
  | succ j ih =>
    intro c acc rest crank calls st hc
    cases c with
    | zero => omega
    | succ c =>
      rw [List.replicate_succ, List.cons_append, runBlockLoop]
      dsimp only
      rw [ih c (acc + 1) rest (crank + 1) (calls + 1) st (by omega)]
      have e1 : crank + 1 + j = crank + (j + 1) := by omega
      have e2 : calls + 1 + (j + 1) = calls + (j + 1 + 1) := by omega
      rw [e1, e2]

/-- C8: if the engine's `step()` throws during a block (after `j < c`
successful units), the exception propagates uncaught out of `runBlock`
with no retry, `store.commit()` is not invoked for that block even when
`doCommit` is set, and the durable state is exactly what it was after the
last successful block commit. -/
theorem step_failure_propagates_no_commit
    (c j : Nat) (dc : Bool) (rest : Engine) (crank calls : Nat) (st : Store)
    (hj : j < c) :
    runBlock c dc
        ⟨List.replicate j StepOutcome.ok ++ StepOutcome.fail :: rest,
         crank, calls, st⟩ =
      (Except.error (), ⟨rest, crank + j, calls + (j + 1), st⟩) := by
  rw [runBlock, runBlockLoop_fail j c 0 rest crank calls st hj]

/-- Witness for C8: a block of ceiling 3 whose second step throws — the
error propagates, the store keeps its 2 commits and durable crank 10. -/
theorem step_failure_propagates_no_commit_witness :
    1 < 3 ∧
    runBlock 3 true
        ⟨List.replicate 1 StepOutcome.ok ++ StepOutcome.fail :: [],
         10, 4, ⟨2, 10⟩⟩ =
      (Except.error (), ⟨[], 10 + 1, 4 + (1 + 1), ⟨2, 10⟩⟩) :=
  ⟨by decide,
   step_failure_propagates_no_commit 3 1 true [] 10 4 ⟨2, 10⟩ (by decide)⟩

/-! ## Association-list lemmas for the promise mapping and the WeakMap -/

/-- Reading back the key just written. -/
lemma lookupA_setA_self {α : Type} (l : List (Nat × α)) (key : Nat) (v : α) :
    lookupA (setA l key v) key = some v := by
  induction l with
  | nil => simp [setA, lookupA]
  | cons p rest ih =>
    obtain ⟨k, a⟩ := p
    by_cases hk : k = key
    · simp [setA, lookupA, hk]
    · simp [setA, lookupA, hk, ih]

/-- Writing one key leaves every other key's read unchanged. -/
lemma lookupA_setA_ne {α : Type} (l : List (Nat × α)) (key key1 : Nat) (v : α)
    (h : key ≠ key1) :
    lookupA (setA l key v) key1 = lookupA l key1 := by
  induction l with
  | nil => simp [setA, lookupA, h]
  | cons p rest ih =>
    obtain ⟨k, a⟩ := p
    by_cases hk : k = key
    · subst hk
      simp [setA, lookupA, h]
    · simp only [setA, if_neg hk]
      by_cases hk1 : k = key1
      · simp [lookupA, hk1]
      · simp [lookupA, hk1, ih]

/-- Writing back the value a key already holds changes nothing. -/
lemma setA_self {α : Type} (l : List (Nat × α)) (key : Nat) (d : α)
    (h : lookupA l key = some d) : setA l key d = l := by
  induction l with
  | nil => simp [lookupA] at h
  | cons p rest ih =>
    obtain ⟨k, a⟩ := p
    by_cases hk : k = key
    · rw [lookupA, if_pos hk] at h
      obtain rfl : a = d := by injection h
      simp [setA, hk]
    · rw [lookupA, if_neg hk] at h
      simp [setA, hk, ih h]

/-- A key that is not among the entries reads as `none`. -/
lemma lookupA_none_of_not_mem {α : Type} (l : List (Nat × α)) (key : Nat)
    (h : key ∉ l.map Prod.fst) : lookupA l key = none := by
  induction l with
  | nil => rfl
  | cons p rest ih =>
    obtain ⟨k, a⟩ := p
    simp only [List.map_cons, List.mem_cons] at h
    push_neg at h
    rw [lookupA, if_neg (fun hk => h.1 hk.symm)]
    exact ih h.2

/-- Resolving an already-settled deferred is a no-op. -/
lemma Deferred.resolve_settled (d : Deferred) (v w : Nat)
    (h : d.resolved = some w) : d.resolve v = d := by
  obtain ⟨r⟩ := d
  cases r with
  | none => simp at h
  | some u => rfl

/-! ## Bridge-state invariants -/

/-- Every correlation id issued so far (below `messageCount`) still has a
registered entry in the mapping. -/
def goodB (s : BridgeState) : Prop :=
  ∀ id, id < s.messageCount → (lookupA s.promises id).isSome = true

/-- The fresh runner state satisfies the registration invariant. -/
lemma goodB_initBridge : goodB initBridge :=
  fun id h => absurd h (Nat.not_lt_zero id)

/-- The outbound callback never touches `messageCount`. -/
lemma doOutboundBridge_messageCount (s : BridgeState) (msgId value : Nat) :
    (doOutboundBridge s msgId value).messageCount = s.messageCount := by
  rcases hl : lookupA s.promises msgId with _ | d <;> simp [doOutboundBridge, hl]

/-- When the id is registered, the outbound callback takes the resolve
branch and emits no warning. -/
lemma doOutboundBridge_warnings_of_isSome (s : BridgeState) (msgId value : Nat)
    (h : (lookupA s.promises msgId).isSome = true) :
    (doOutboundBridge s msgId value).warnings = s.warnings := by
  rcases hl : lookupA s.promises msgId with _ | d
  · rw [hl] at h
    simp at h
  · simp [doOutboundBridge, hl]

/-- The outbound callback never removes an entry from the mapping. -/
lemma doOutboundBridge_preserves_isSome (s : BridgeState) (msgId value id : Nat)
    (h : (lookupA s.promises id).isSome = true) :
    (lookupA (doOutboundBridge s msgId value).promises id).isSome = true := by
  rcases hl : lookupA s.promises msgId with _ | d
  · simpa [doOutboundBridge, hl] using h
  · simp only [doOutboundBridge, hl]
    by_cases hid : msgId = id
    · subst hid
      simp [lookupA_setA_self]
    · simpa [lookupA_setA_ne s.promises msgId id _ hid] using h

/-- The outbound callback preserves the registration invariant. -/
lemma goodB_doOutboundBridge (s : BridgeState) (msgId value : Nat)
    (h : goodB s) : goodB (doOutboundBridge s msgId value) := by
  intro id hid
  rw [doOutboundBridge_messageCount] at hid
  exact doOutboundBridge_preserves_isSome s msgId value id (h id hid)

/-- A burst of outbound callbacks never touches `messageCount`. -/
lemma foldl_outbound_messageCount (calls : List (Nat × Nat)) :
    ∀ s : BridgeState,
      (calls.foldl (fun st c => doOutboundBridge st c.1 c.2) s).messageCount =
        s.messageCount := by
  induction calls with
  | nil => intro s; rfl
  | cons c rest ih =>
    intro s
    rw [List.foldl_cons, ih, doOutboundBridge_messageCount]

/-- A burst of outbound callbacks preserves the registration invariant. -/
lemma foldl_outbound_goodB (calls : List (Nat × Nat)) :
    ∀ s : BridgeState, goodB s →
      goodB (calls.foldl (fun st c => doOutboundBridge st c.1 c.2) s) := by
  induction calls with
  | nil => intro s h; exact h
  | cons c rest ih =>
    intro s h
    rw [List.foldl_cons]
    exact ih _ (goodB_doOutboundBridge s c.1 c.2 h)

/-- A burst of outbound callbacks whose ids are all already issued emits
no warning. -/
lemma foldl_outbound_warnings (calls : List (Nat × Nat)) :
    ∀ s : BridgeState, goodB s → (∀ c ∈ calls, c.1 < s.messageCount) →
      (calls.foldl (fun st c => doOutboundBridge st c.1 c.2) s).warnings =
        s.warnings := by
  induction calls with
  | nil => intro s _ _; rfl
  | cons c rest ih =>
    intro s hg hc
    rw [List.foldl_cons]
    have h1 : (lookupA s.promises c.1).isSome = true :=
      hg c.1 (hc c (List.mem_cons_self c rest))
    rw [ih (doOutboundBridge s c.1 c.2) (goodB_doOutboundBridge s c.1 c.2 hg)
      (fun c1 hc1 => by
        rw [doOutboundBridge_messageCount]
        exact hc c1 (List.mem_cons_of_mem c hc1))]
    exact doOutboundBridge_warnings_of_isSome s c.1 c.2 h1

/-- `handleMessage` issues the current `messageCount` as the id. -/
lemma handleMessage_fst (s : BridgeState) (calls : List (Nat × Nat)) :
    (handleMessage s calls).1 = s.messageCount := rfl

/-- `handleMessage` increments `messageCount` exactly once. -/
lemma handleMessage_messageCount (s : BridgeState) (calls : List (Nat × Nat)) :
    (handleMessage s calls).2.messageCount = s.messageCount + 1 := by
  rw [handleMessage]
  dsimp only
  rw [foldl_outbound_messageCount]

/-- Registering the new deferred preserves the invariant and covers the
freshly issued id. -/
lemma goodB_register (s : BridgeState) (h : goodB s) :
    goodB { s with
              messageCount := s.messageCount + 1
              promises := setA s.promises s.messageCount { resolved := none } } := by
  intro id hid
  dsimp only at hid ⊢
  by_cases he : id = s.messageCount
  · subst he
    rw [lookupA_setA_self]
    rfl
  · rw [lookupA_setA_ne s.promises s.messageCount id _ (fun hh => he hh.symm)]
    exact h id (by omega)

/-- `handleMessage` preserves the registration invariant. -/
lemma goodB_handleMessage (s : BridgeState) (calls : List (Nat × Nat))
    (h : goodB s) : goodB (handleMessage s calls).2 := by
  rw [handleMessage]
  dsimp only
  exact foldl_outbound_goodB calls _ (goodB_register s h)

/-- Every operation preserves the registration invariant. -/
lemma goodB_applyOp (s : BridgeState) (op : BridgeOp) (h : goodB s) :
    goodB (applyOp s op) := by
  cases op with
  | handle calls => exact goodB_handleMessage s calls h
  | outbound msgId value => exact goodB_doOutboundBridge s msgId value h

/-- Whole runs preserve the registration invariant. -/
lemma goodB_runOps (ops : List BridgeOp) :
    ∀ s : BridgeState, goodB s → goodB (runOps s ops) := by
  induction ops with
  | nil => intro s h; exact h
  | cons op rest ih => intro s h; exact ih _ (goodB_applyOp s op h)

/-- `messageCount` never decreases under an operation. -/
lemma applyOp_messageCount_le (s : BridgeState) (op : BridgeOp) :
    s.messageCount ≤ (applyOp s op).messageCount := by
  cases op with
  | handle calls =>
    rw [applyOp, handleMessage_messageCount]
    omega
  | outbound msgId value =>
    rw [applyOp, doOutboundBridge_messageCount]

/-- `messageCount` never decreases over a run. -/
lemma runOps_messageCount_le (ops : List BridgeOp) :
    ∀ s : BridgeState, s.messageCount ≤ (runOps s ops).messageCount := by
  induction ops with
  | nil => intro s; exact Nat.le_refl _
  | cons op rest ih =>
    intro s
    exact Nat.le_trans (applyOp_messageCount_le s op) (ih _)

/-- Every id issued during a run is at least the starting counter. -/
lemma issuedIds_ge (ops : List BridgeOp) :
    ∀ (s : BridgeState) (id : Nat), id ∈ issuedIds s ops →
      s.messageCount ≤ id := by
  induction ops with
  | nil => intro s id h; simp [issuedIds] at h
  | cons op rest ih =>
    intro s id hmem
    cases op with
    | handle calls =>
      rw [issuedIds] at hmem
      rcases List.mem_cons.mp hmem with h | h
      · rw [h, handleMessage_fst]
      · have h1 := ih _ id h
        have h2 := applyOp_messageCount_le s (BridgeOp.handle calls)
        omega
    | outbound msgId value =>
      rw [issuedIds] at hmem
      have h1 := ih _ id hmem
      have h2 := applyOp_messageCount_le s (BridgeOp.outbound msgId value)
      omega

/-- Issued ids are strictly increasing along any run. -/
lemma issuedIds_pairwise (ops : List BridgeOp) :
    ∀ s : BridgeState, List.Pairwise (fun a b => a < b) (issuedIds s ops) := by
  induction ops with
  | nil => intro s; simp [issuedIds]
  | cons op rest ih =>
    intro s
    cases op with
    | handle calls =>
      rw [issuedIds]
      refine List.Pairwise.cons ?_ (ih _)
      intro y hy
      have h1 := issuedIds_ge rest (applyOp s (BridgeOp.handle calls)) y hy
      have h2 : (applyOp s (BridgeOp.handle calls)).messageCount =
          s.messageCount + 1 := handleMessage_messageCount s calls
      rw [handleMessage_fst]
      omega
    | outbound msgId value =>
      rw [issuedIds]
      exact ih _

/-- Every id issued during a run is below the run's final counter. -/
lemma issuedIds_lt_runOps (ops : List BridgeOp) :
    ∀ (s : BridgeState) (id : Nat), id ∈ issuedIds s ops →
      id < (runOps s ops).messageCount := by
  induction ops with
  | nil => intro s id h; simp [issuedIds] at h
  | cons op rest ih =>
    intro s id hmem
    cases op with
    | handle calls =>
      rw [issuedIds] at hmem
      rcases List.mem_cons.mp hmem with h | h
      · have h2 : (applyOp s (BridgeOp.handle calls)).messageCount =
            s.messageCount + 1 := handleMessage_messageCount s calls
        have h3 := runOps_messageCount_le rest (applyOp s (BridgeOp.handle calls))
        rw [h, handleMessage_fst]
        show s.messageCount < (runOps (applyOp s (BridgeOp.handle calls)) rest).messageCount
        omega
      · exact ih _ id h
    | outbound msgId value =>
      rw [issuedIds] at hmem
      exact ih _ id hmem

/-! ## C2 — pending entries after resolution

The claim states the entry is removed from the mapping immediately after
resolution.  `doOutboundBridge` has no delete: it only resolves the
registered deferred in place, so the entry persists. -/

/-- C2 counterexample: after `handleMessage` issues id 0 and the engine's
outbound callback resolves it with 42, the entry for id 0 is still
present in the live mapping (holding its resolution), contradicting the
claim that the id is no longer present. -/
theorem pending_entry_removed_counterexample :
    lookupA (handleMessage initBridge [(0, 42)]).2.promises 0 =
      some { resolved := some 42 } := by
  decide

/-- C2 (amended): a PendingCall entry is never removed from the live
mapping: after the outbound callback resolves the entry for a correlation
ID, that ID is still present, its deferred now holding the resolution. -/
theorem pending_entry_persists (s : BridgeState) (msgId value : Nat)
    (d : Deferred) (h : lookupA s.promises msgId = some d) :
    lookupA (doOutboundBridge s msgId value).promises msgId =
      some (d.resolve value) := by
  simp [doOutboundBridge, h, lookupA_setA_self]

/-- Witness for C2 (amended): the entry registered for id 0 persists
through its resolution with value 9. -/
theorem pending_entry_persists_witness :
    lookupA (handleMessage initBridge []).2.promises 0 =
      some { resolved := none } ∧
    lookupA (doOutboundBridge (handleMessage initBridge []).2 0 9).promises 0 =
      some (Deferred.resolve { resolved := none } 9) :=
  ⟨by decide,
   pending_entry_persists (handleMessage initBridge []).2 0 9
     { resolved := none } (by decide)⟩

/-! ## C3 — a second resolution of the same id

The claim states a second resolution is rejected and logged as a
warning.  In the code the entry is still present (it was never removed),
so the missing-id branch is not taken and no warning is emitted; the
second `resolve` on the already-settled deferred is a silent no-op, and
only the first value takes effect. -/

/-- C3 counterexample: the engine resolves id 0 twice (42 then 7) during
one `handleMessage` drain — no warning is logged (contradicting the
claimed protocol-violation report), while the first value takes
effect. -/
theorem double_resolution_warning_counterexample :
    (handleMessage initBridge [(0, 42), (0, 7)]).2.warnings = [] ∧
    lookupA (handleMessage initBridge [(0, 42), (0, 7)]).2.promises 0 =
      some { resolved := some 42 } := by
  exact ⟨by decide, by decide⟩

/-- C3 (amended): a second outbound resolution for an already-resolved
correlation ID is silently ignored — the still-present entry means the
warning branch is not taken, resolving the settled deferred is a no-op,
the bridge state is entirely unchanged, and only the first resolution's
value takes effect for the caller of handle. -/
theorem double_resolution_silent_noop (s : BridgeState) (msgId v0 v1 : Nat)
    (d : Deferred) (h : lookupA s.promises msgId = some d)
    (hd : d.resolved = some v0) :
    doOutboundBridge s msgId v1 = s ∧
    lookupA (doOutboundBridge s msgId v1).promises msgId = some d := by
  have hres : d.resolve v1 = d := Deferred.resolve_settled d v1 v0 hd
  have heq : doOutboundBridge s msgId v1 = s := by
    simp [doOutboundBridge, h, hres, setA_self s.promises msgId d h]
  exact ⟨heq, by rw [heq]; exact h⟩

/-- Witness for C3 (amended): after id 0 resolved with 42, a second
resolution with 7 changes nothing. -/
theorem double_resolution_silent_noop_witness :
    doOutboundBridge (handleMessage initBridge [(0, 42)]).2 0 7 =
      (handleMessage initBridge [(0, 42)]).2 ∧
    lookupA (doOutboundBridge (handleMessage initBridge [(0, 42)]).2 0 7).promises 0 =
      some { resolved := some 42 } :=
  double_resolution_silent_noop (handleMessage initBridge [(0, 42)]).2 0 42 7
    { resolved := some 42 } (by decide) rfl

/-! ## C5 — correlation ids strictly increasing, never reused -/

/-- C5: over any sequence of bridge operations on one runner instance —
`handleMessage` invocations interleaved with outbound callbacks,
including resolutions of earlier PendingCalls — the correlation ids
issued by consecutive `handleMessage` calls are strictly increasing, and
no id is ever issued twice. -/
theorem issued_ids_strictly_increasing (ops : List BridgeOp) :
    List.Pairwise (fun a b => a < b) (issuedIds initBridge ops) ∧
    (issuedIds initBridge ops).Nodup :=
  ⟨issuedIds_pairwise ops initBridge,
   (issuedIds_pairwise ops initBridge).imp Nat.ne_of_lt⟩

/-! ## C7 — unknown correlation id: warn, discard, return normally -/

/-- C7: when the outbound callback is invoked with a correlation ID that
has no registered entry, it emits the missing-id warning and changes
nothing else — the delivery is discarded and the (total) callback
returns normally rather than throwing into engine execution. -/
theorem outbound_missing_id_warns_and_discards (s : BridgeState)
    (msgId value : Nat) (h : lookupA s.promises msgId = none) :
    doOutboundBridge s msgId value =
      { s with warnings := s.warnings ++ [msgId] } := by
  simp [doOutboundBridge, h]

/-- Witness for C7: id 3 was never issued on the fresh bridge — the
callback warns about it and discards the value. -/
theorem outbound_missing_id_warns_and_discards_witness :
    doOutboundBridge initBridge 3 9 =
      { initBridge with warnings := initBridge.warnings ++ [3] } :=
  outbound_missing_id_warns_and_discards initBridge 3 9 rfl

/-! ## C9 — registration precedes delivery, so issued ids never hit the
missing-entry branch

`handleMessage` stores the deferred under the new id before
`deliverInbound`/`runBatch` can trigger any outbound callback, and no
operation ever removes an entry; hence an outbound callback carrying an
id that `handleMessage` has issued — whether during that message's own
drain or at any later point — always finds the entry and never takes the
missing-entry (warning) branch. -/

/-- C9: (1) during a `handleMessage` drain whose outbound callbacks all
carry ids already issued (at most the id just allocated), no
missing-entry warning is emitted; (2) over any run from the fresh
runner, an outbound callback invoked afterwards with any id issued by
some `handleMessage` of the run emits no warning either. -/
theorem registered_before_delivery_no_missing_branch :
    (∀ (s : BridgeState) (calls : List (Nat × Nat)), goodB s →
        (∀ c ∈ calls, c.1 ≤ s.messageCount) →
        (handleMessage s calls).2.warnings = s.warnings) ∧
    (∀ (ops : List BridgeOp) (msgId value : Nat),
        msgId ∈ issuedIds initBridge ops →
        (doOutboundBridge (runOps initBridge ops) msgId value).warnings =
          (runOps initBridge ops).warnings) := by
  constructor
  · intro s calls hg hc
    rw [handleMessage]
    dsimp only
    rw [foldl_outbound_warnings calls _ (goodB_register s hg)
      (fun c hcc => by
        dsimp only
        exact Nat.lt_succ_of_le (hc c hcc))]
  · intro ops msgId value hmem
    have hg : goodB (runOps initBridge ops) :=
      goodB_runOps ops initBridge goodB_initBridge
    have hlt : msgId < (runOps initBridge ops).messageCount :=
      issuedIds_lt_runOps ops initBridge msgId hmem
    exact doOutboundBridge_warnings_of_isSome _ msgId value (hg msgId hlt)

/-- Witness for C9: a drain resolving the just-issued id 0 emits no
warning, and a later outbound callback with the previously issued id 0
emits no warning either. -/
theorem registered_before_delivery_no_missing_branch_witness :
    (handleMessage initBridge [(0, 5)]).2.warnings = initBridge.warnings ∧
    (doOutboundBridge (runOps initBridge [BridgeOp.handle []]) 0 7).warnings =
      (runOps initBridge [BridgeOp.handle []]).warnings :=
  ⟨registered_before_delivery_no_missing_branch.1 initBridge [(0, 5)]
     goodB_initBridge (by decide),
   registered_before_delivery_no_missing_branch.2 [BridgeOp.handle []] 0 7
     (by decide)⟩

/-! ## C10 — sealer round trip; foreign objects unseal to undefined -/

/-- C10: for every value and label, unsealing the freshly sealed box
yields the original value back, and unsealing any object that this
sealer's seal did not produce (its identity is not a key of the sealer's
WeakMap) yields `undefined` (`none`). -/
theorem sealer_roundtrip_and_foreign_undefined (s : SealerState)
    (x label : Nat) :
    unsealOp (sealOp s x label).2 (sealOp s x label).1 = some x ∧
    (∀ obj : Sealed, obj.identity ∉ s.unsealMap.map Prod.fst →
      unsealOp s obj = none) := by
  constructor
  · rw [sealOp, unsealOp]
    exact lookupA_setA_self s.unsealMap s.nextId x
  · intro obj hobj
    rw [unsealOp]
    exact lookupA_none_of_not_mem s.unsealMap obj.identity hobj

/-- Witness for C10: sealing 5 under label 1 on a fresh sealer and
unsealing gives 5 back; a foreign object (identity 99) unseals to
`none`. -/
theorem sealer_roundtrip_and_foreign_undefined_witness :
    unsealOp (sealOp makeSealer 5 1).2 (sealOp makeSealer 5 1).1 = some 5 ∧
    unsealOp makeSealer { identity := 99, label := 0 } = none :=
  ⟨(sealer_roundtrip_and_foreign_undefined makeSealer 5 1).1,
   (sealer_roundtrip_and_foreign_undefined makeSealer 5 1).2
     { identity := 99, label := 0 } (by decide)⟩

end DiscordSesBot
